import Mathlib

/-!
Verification of the multi-agent orchestration workflow (LangGraph state graph
in `src/lib/agents/graph.ts` and its driver in the route handler).

The graph state (`WorkflowState`), the node functions (`designNode`,
`designNudgeNode`, `designToolsPostProcess`, `engineerNode`,
`engineerNudgeNode`, `qaNode`, `qaNudgeNode`, `qaDecisionNode`), the routers
(`routeDesign`, `routeEngineer`, `routeQA`, `routeQADecision`) and the graph
wiring (`addConditionalEdges` maps and fixed edges) are embedded as Lean
functions.  Model responses and tool outputs are external collaborators, so
they enter the step relation as parameters.
-/

namespace MultiAgent

/-- Message role, mirroring the LangChain message types the source inspects
via `getType()`: "human", "ai", "tool". -/
inductive Role where
  | human
  | ai
  | tool
deriving DecidableEq, Repr

/-- One requested tool invocation (an entry of an AI message's `tool_calls`). -/
structure ToolCall where
  name : String
  args : String
deriving DecidableEq, Repr

/-- One transcript message: role, text content, and the tool calls requested
by the message (empty unless it is an AI message that requested tools). -/
structure Msg where
  role : Role
  content : String
  toolCalls : List ToolCall
deriving DecidableEq, Repr

def humanMsg (content : String) : Msg := ⟨Role.human, content, []⟩

def aiMsg (content : String) (tcs : List ToolCall) : Msg := ⟨Role.ai, content, tcs⟩

def toolMsg (content : String) : Msg := ⟨Role.tool, content, []⟩

/-- Substring occurrence on character lists. -/
def hasSubstrAux (pat : List Char) : List Char → Bool
  | [] => pat.isEmpty
  | c :: rest => pat.isPrefixOf (c :: rest) || hasSubstrAux pat rest

/-- JavaScript `String.prototype.includes`: substring containment. -/
def strIncludes (s pat : String) : Bool := hasSubstrAux pat.toList s.toList

/-- `const MAX_ITERATIONS = 2` (graph.ts line 14). -/
def MAX_ITERATIONS : Nat := 2

/-- `const MAX_RETRIES = 1` (graph.ts line 29). -/
def MAX_RETRIES : Nat := 1

/-- The graph state (`WorkflowState = Annotation.Root({...})`, graph.ts lines
30-41).  Every non-message channel uses a replace reducer; `messages` uses the
append reducer of `MessagesAnnotation`.  The two start indices use the source's
`-1` sentinel for "unset", hence `Int`. -/
structure WorkflowState where
  messages : List Msg
  designSpec : String
  reviewNotes : String
  currentAgent : String
  iterationCount : Nat
  designRetries : Nat
  engineerRetries : Nat
  qaRetries : Nat
  engineerStartIdx : Int
  qaStartIdx : Int
deriving DecidableEq, Repr

/-- The state `graph.invoke({ messages: [new HumanMessage(content)] })` starts
from: the single user message plus every channel's declared default. -/
def initState (userContent : String) : WorkflowState :=
  { messages := [humanMsg userContent]
    designSpec := ""
    reviewNotes := ""
    currentAgent := "design"
    iterationCount := 0
    designRetries := 0
    engineerRetries := 0
    qaRetries := 0
    engineerStartIdx := -1
    qaStartIdx := -1 }

/-- The routers' guard `lastMsg.getType() === "ai" && lastMsg.tool_calls?.length`. -/
def isToolCallMsg (m : Msg) : Bool := m.role == Role.ai && !m.toolCalls.isEmpty

/-- `routeDesign` (graph.ts lines 112-122), as a function of the last message
(the source reads `state.messages[state.messages.length - 1]`) and the design
retry counter. -/
def routeDesign (lastMsg : Msg) (designRetries : Nat) : String :=
  if isToolCallMsg lastMsg then "design_tools"
  else if designRetries < MAX_RETRIES then "design_nudge"
  else "engineer"

/-- `routeEngineer` (graph.ts lines 206-215). -/
def routeEngineer (lastMsg : Msg) (engineerRetries : Nat) : String :=
  if isToolCallMsg lastMsg then "engineer_tools"
  else if engineerRetries < MAX_RETRIES then "engineer_nudge"
  else "qa"

/-- `routeQA` (graph.ts lines 266-275). -/
def routeQA (lastMsg : Msg) (qaRetries : Nat) : String :=
  if isToolCallMsg lastMsg then "qa_tools"
  else if qaRetries < MAX_RETRIES then "qa_nudge"
  else "qa_decision"

/-- `designNode` (graph.ts lines 78-109): appends the model response and sets
`currentAgent`.  The response itself comes from the model collaborator, so it
is a parameter. -/
def designNode (s : WorkflowState) (response : Msg) : WorkflowState :=
  { s with messages := s.messages ++ [response], currentAgent := "design" }

/-- The scoped transcript view `designNode` sends to the model: only the
user-role messages (`state.messages.filter(m => m.getType() === "human")`). -/
def designNodeInput (s : WorkflowState) : List Msg :=
  s.messages.filter (fun m => m.role == Role.human)

def designNudgeText : String :=
  "You must use the create_design_spec tool now. Do not ask questions — produce the design spec immediately using the tool."

/-- `designNudgeNode` (graph.ts lines 125-134): appends a synthetic human
message and increments `designRetries`. -/
def designNudgeNode (s : WorkflowState) : WorkflowState :=
  { s with messages := s.messages ++ [humanMsg designNudgeText]
           designRetries := s.designRetries + 1 }

/-- The backward scan of `designToolsPostProcess` (graph.ts lines 142-152):
latest tool message containing "Design spec created"; the argument list is the
transcript reversed (newest first). -/
def findDesignSpec (cur : String) : List Msg → String
  | [] => cur
  | m :: rest =>
    if m.role == Role.tool && strIncludes m.content "Design spec created" then m.content
    else findDesignSpec cur rest

/-- `designToolsPostProcess` (graph.ts lines 137-155). -/
def designToolsPostProcess (s : WorkflowState) : WorkflowState :=
  { s with designSpec := findDesignSpec s.designSpec s.messages.reverse }

/-- `state.engineerStartIdx >= 0 ? state.engineerStartIdx : state.messages.length`
(graph.ts line 166). -/
def engineerStartIdxEff (s : WorkflowState) : Nat :=
  if 0 ≤ s.engineerStartIdx then s.engineerStartIdx.toNat else s.messages.length

/-- The scoped transcript view `engineerNode` sends to the model (graph.ts
lines 177-182): the first human message plus this agent's own tool-loop
messages from `startIdx` on. -/
def engineerNodeInput (s : WorkflowState) : List Msg :=
  let startIdx := engineerStartIdxEff s
  let userMsg := s.messages.find? (fun m => m.role == Role.human)
  let agentMessages :=
    if startIdx < s.messages.length then s.messages.drop startIdx else []
  (match userMsg with
   | some u => [u]
   | none => []) ++ agentMessages

/-- `engineerNode` (graph.ts lines 158-203): appends the model response, sets
`currentAgent`, and records the activation's start index. -/
def engineerNode (s : WorkflowState) (response : Msg) : WorkflowState :=
  { s with messages := s.messages ++ [response]
           currentAgent := "engineer"
           engineerStartIdx := Int.ofNat (engineerStartIdxEff s) }

def engineerNudgeText : String :=
  "You must use the str_replace_editor tool now to create the component files. Do not ask questions — start by creating /App.jsx immediately using the tool."

/-- `engineerNudgeNode` (graph.ts lines 218-227). -/
def engineerNudgeNode (s : WorkflowState) : WorkflowState :=
  { s with messages := s.messages ++ [humanMsg engineerNudgeText]
           engineerRetries := s.engineerRetries + 1 }

/-- `state.qaStartIdx >= 0 ? state.qaStartIdx : state.messages.length`
(graph.ts line 234). -/
def qaStartIdxEff (s : WorkflowState) : Nat :=
  if 0 ≤ s.qaStartIdx then s.qaStartIdx.toNat else s.messages.length

/-- The scoped transcript view `qaNode` sends to the model (graph.ts lines
237-242). -/
def qaNodeInput (s : WorkflowState) : List Msg :=
  let startIdx := qaStartIdxEff s
  let userMsg := s.messages.find? (fun m => m.role == Role.human)
  let agentMessages :=
    if startIdx < s.messages.length then s.messages.drop startIdx else []
  (match userMsg with
   | some u => [u]
   | none => []) ++ agentMessages

/-- `qaNode` (graph.ts lines 230-263). -/
def qaNode (s : WorkflowState) (response : Msg) : WorkflowState :=
  { s with messages := s.messages ++ [response]
           currentAgent := "qa"
           qaStartIdx := Int.ofNat (qaStartIdxEff s) }

def qaNudgeText : String :=
  "You must use the str_replace_editor tool to view the files, then use submit_review to deliver your verdict. Do not ask questions — start by viewing /App.jsx now."

/-- `qaNudgeNode` (graph.ts lines 278-287). -/
def qaNudgeNode (s : WorkflowState) : WorkflowState :=
  { s with messages := s.messages ++ [humanMsg qaNudgeText]
           qaRetries := s.qaRetries + 1 }

/-- The verdict scan loop body of `qaDecisionNode` (graph.ts lines 296-309),
applied to the scanned window newest first: the first tool message containing
"NEEDS REVISION" yields a needs-revision verdict, otherwise the first one
containing "APPROVED" yields approval. -/
def scanForVerdict : List Msg → Option (Bool × String)
  | [] => none
  | m :: rest =>
    if m.role == Role.tool then
      if strIncludes m.content "NEEDS REVISION" then some (true, m.content)
      else if strIncludes m.content "APPROVED" then some (false, m.content)
      else scanForVerdict rest
    else scanForVerdict rest

/-- The window the scan inspects: `for (let i = messages.length - 1;
i >= Math.max(0, messages.length - 10); i--)` — the at most 10 most recent
messages, newest first. -/
def recentWindow (ms : List Msg) : List Msg := (ms.drop (ms.length - 10)).reverse

/-- The whole verdict scan of `qaDecisionNode`. -/
def verdictScan (ms : List Msg) : Option (Bool × String) := scanForVerdict (recentWindow ms)

/-- The `needsRevision` local of `qaDecisionNode` (false when no verdict
message is found). -/
def qaVerdict (s : WorkflowState) : Bool :=
  match verdictScan s.messages with
  | some p => p.1
  | none => false

/-- The `reviewNotes` local of `qaDecisionNode` ("" when no verdict message is
found). -/
def qaNotes (s : WorkflowState) : String :=
  match verdictScan s.messages with
  | some p => p.2
  | none => ""

/-- `qaDecisionNode` (graph.ts lines 290-330): `iteration = iterationCount + 1`
is computed before the branch and returned on both branches; the revision
branch additionally routes to the engineer and clears `engineerStartIdx`. -/
def qaDecisionNode (s : WorkflowState) : WorkflowState :=
  if qaVerdict s = true ∧ s.iterationCount + 1 < MAX_ITERATIONS then
    { s with reviewNotes := qaNotes s
             iterationCount := s.iterationCount + 1
             currentAgent := "engineer"
             engineerStartIdx := -1 }
  else
    { s with reviewNotes := qaNotes s
             iterationCount := s.iterationCount + 1
             currentAgent := "done" }

/-- `routeQADecision` (graph.ts lines 333-338); "END" stands for the END
sentinel. -/
def routeQADecision (s : WorkflowState) : String :=
  if s.currentAgent = "engineer" then "engineer" else "END"

/-- The graph's node set (`addNode` calls, graph.ts lines 341-356), plus the
END sentinel `done`. -/
inductive Node where
  | design
  | design_tools
  | design_post
  | engineer
  | engineer_tools
  | qa
  | qa_tools
  | qa_decision
  | design_nudge
  | engineer_nudge
  | qa_nudge
  | done
deriving DecidableEq, Repr

/-- The conditional-edge map of `addConditionalEdges("design", routeDesign, ...)`
(graph.ts lines 359-363). -/
def designEdges (r : String) : Node :=
  if r = "design_tools" then Node.design_tools
  else if r = "design_nudge" then Node.design_nudge
  else Node.engineer

/-- The conditional-edge map of `addConditionalEdges("engineer", routeEngineer, ...)`
(graph.ts lines 367-371). -/
def engineerEdges (r : String) : Node :=
  if r = "engineer_tools" then Node.engineer_tools
  else if r = "engineer_nudge" then Node.engineer_nudge
  else Node.qa

/-- The conditional-edge map of `addConditionalEdges("qa", routeQA, ...)`
(graph.ts lines 374-378). -/
def qaEdges (r : String) : Node :=
  if r = "qa_tools" then Node.qa_tools
  else if r = "qa_nudge" then Node.qa_nudge
  else Node.qa_decision

/-- The conditional-edge map of `addConditionalEdges("qa_decision", ...)`
(graph.ts lines 381-384). -/
def qaDecisionEdges (r : String) : Node :=
  if r = "engineer" then Node.engineer else Node.done

/-- A `ToolNode` run appends its result messages to the transcript. -/
def toolNodeAppend (s : WorkflowState) (results : List Msg) : WorkflowState :=
  { s with messages := s.messages ++ results }

/-- What a `ToolNode` produces: one tool-result message per tool call requested
by the latest (AI) message, in order; with `handleToolErrors: true` an error is
serialized into the result content, so there is always exactly one result per
call. -/
def ValidToolResults (s : WorkflowState) (results : List Msg) : Prop :=
  (∀ m ∈ results, m.role = Role.tool) ∧
    results.length = (match s.messages.getLast? with
                      | some m => m.toolCalls.length
                      | none => 0)

/-- A point of execution of the compiled graph: the node about to run and the
current state. -/
structure Config where
  node : Node
  state : WorkflowState
deriving DecidableEq, Repr

/-- One transition of the compiled graph: run the node, then follow its
outgoing (possibly conditional) edge.  Model responses and tool results are
free parameters, since they come from the external collaborators.  For the
agent nodes, the router reads the last message of the post-node state, which is
exactly the appended response. -/
inductive Step : Config → Config → Prop where
  | design (s : WorkflowState) (resp : Msg) :
      Step ⟨Node.design, s⟩
        ⟨designEdges (routeDesign resp s.designRetries), designNode s resp⟩
  | design_tools (s : WorkflowState) (results : List Msg)
      (hv : ValidToolResults s results) :
      Step ⟨Node.design_tools, s⟩ ⟨Node.design_post, toolNodeAppend s results⟩
  | design_post (s : WorkflowState) :
      Step ⟨Node.design_post, s⟩ ⟨Node.engineer, designToolsPostProcess s⟩
  | design_nudge (s : WorkflowState) :
      Step ⟨Node.design_nudge, s⟩ ⟨Node.design, designNudgeNode s⟩
  | engineer (s : WorkflowState) (resp : Msg) :
      Step ⟨Node.engineer, s⟩
        ⟨engineerEdges (routeEngineer resp s.engineerRetries), engineerNode s resp⟩
  | engineer_tools (s : WorkflowState) (results : List Msg)
      (hv : ValidToolResults s results) :
      Step ⟨Node.engineer_tools, s⟩ ⟨Node.engineer, toolNodeAppend s results⟩
  | engineer_nudge (s : WorkflowState) :
      Step ⟨Node.engineer_nudge, s⟩ ⟨Node.engineer, engineerNudgeNode s⟩
  | qa (s : WorkflowState) (resp : Msg) :
      Step ⟨Node.qa, s⟩ ⟨qaEdges (routeQA resp s.qaRetries), qaNode s resp⟩
  | qa_tools (s : WorkflowState) (results : List Msg)
      (hv : ValidToolResults s results) :
      Step ⟨Node.qa_tools, s⟩ ⟨Node.qa, toolNodeAppend s results⟩
  | qa_nudge (s : WorkflowState) :
      Step ⟨Node.qa_nudge, s⟩ ⟨Node.qa, qaNudgeNode s⟩
  | qa_decision (s : WorkflowState) :
      Step ⟨Node.qa_decision, s⟩
        ⟨qaDecisionEdges (routeQADecision (qaDecisionNode s)), qaDecisionNode s⟩

/-- `addEdge(START, "design")`: the run enters at the design node. -/
def initConfig (userContent : String) : Config := ⟨Node.design, initState userContent⟩

/-- Configurations a run started on `userContent` can reach. -/
def Reachable (userContent : String) (c : Config) : Prop :=
  Relation.ReflTransGen Step (initConfig userContent) c

/-- The counter invariant maintained by every graph transition: the iteration
counter stays below `MAX_ITERATIONS` while the run is live, every retry
counter stays at or below `MAX_RETRIES`, and a nudge node only ever runs with
its retry counter strictly below the cap. -/
def CounterInv (c : Config) : Prop :=
  c.state.iterationCount ≤ MAX_ITERATIONS ∧
  (c.node ≠ Node.done → c.state.iterationCount < MAX_ITERATIONS) ∧
  c.state.designRetries ≤ MAX_RETRIES ∧
  c.state.engineerRetries ≤ MAX_RETRIES ∧
  c.state.qaRetries ≤ MAX_RETRIES ∧
  (c.node = Node.design_nudge → c.state.designRetries < MAX_RETRIES) ∧
  (c.node = Node.engineer_nudge → c.state.engineerRetries < MAX_RETRIES) ∧
  (c.node = Node.qa_nudge → c.state.qaRetries < MAX_RETRIES)

/-- Where the design router can send the run: tools, or (with retries left)
the nudge, or the engineer. -/
lemma design_target (m : Msg) (r : Nat) :
    designEdges (routeDesign m r) = Node.design_tools ∨
      (designEdges (routeDesign m r) = Node.design_nudge ∧ r < MAX_RETRIES) ∨
      designEdges (routeDesign m r) = Node.engineer := by
  unfold routeDesign
  cases hb : isToolCallMsg m
  · by_cases hr : r < MAX_RETRIES
    · exact Or.inr (Or.inl ⟨by simp [hr, designEdges], hr⟩)
    · exact Or.inr (Or.inr (by simp [hr, designEdges]))
  · exact Or.inl (by simp [designEdges])

/-- Where the engineer router can send the run. -/
lemma engineer_target (m : Msg) (r : Nat) :
    engineerEdges (routeEngineer m r) = Node.engineer_tools ∨
      (engineerEdges (routeEngineer m r) = Node.engineer_nudge ∧ r < MAX_RETRIES) ∨
      engineerEdges (routeEngineer m r) = Node.qa := by
  unfold routeEngineer
  cases hb : isToolCallMsg m
  · by_cases hr : r < MAX_RETRIES
    · exact Or.inr (Or.inl ⟨by simp [hr, engineerEdges], hr⟩)
    · exact Or.inr (Or.inr (by simp [hr, engineerEdges]))
  · exact Or.inl (by simp [engineerEdges])

/-- Where the QA router can send the run. -/
lemma qa_target (m : Msg) (r : Nat) :
    qaEdges (routeQA m r) = Node.qa_tools ∨
      (qaEdges (routeQA m r) = Node.qa_nudge ∧ r < MAX_RETRIES) ∨
      qaEdges (routeQA m r) = Node.qa_decision := by
  unfold routeQA
  cases hb : isToolCallMsg m
  · by_cases hr : r < MAX_RETRIES
    · exact Or.inr (Or.inl ⟨by simp [hr, qaEdges], hr⟩)
    · exact Or.inr (Or.inr (by simp [hr, qaEdges]))
  · exact Or.inl (by simp [qaEdges])

/-- `qaDecisionNode` on the revision branch. -/
lemma qaDecisionNode_revision (s : WorkflowState)
    (hc : qaVerdict s = true ∧ s.iterationCount + 1 < MAX_ITERATIONS) :
    qaDecisionNode s =
      { s with reviewNotes := qaNotes s
               iterationCount := s.iterationCount + 1
               currentAgent := "engineer"
               engineerStartIdx := -1 } := by
  simp [qaDecisionNode, hc]

/-- `qaDecisionNode` on the terminating branch. -/
lemma qaDecisionNode_done (s : WorkflowState)
    (hc : ¬(qaVerdict s = true ∧ s.iterationCount + 1 < MAX_ITERATIONS)) :
    qaDecisionNode s =
      { s with reviewNotes := qaNotes s
               iterationCount := s.iterationCount + 1
               currentAgent := "done" } := by
  simp [qaDecisionNode, hc]

/-- One graph transition preserves the counter invariant. -/
lemma counterInv_step {c c' : Config} (h : CounterInv c) (hs : Step c c') :
    CounterInv c' := by
  obtain ⟨h1, h2, h3, h4, h5, h6, h7, h8⟩ := h
  cases hs with
  | design s resp =>
    have hiter : s.iterationCount < MAX_ITERATIONS := h2 fun hd => Node.noConfusion hd
    refine ⟨le_of_lt hiter, fun _ => hiter, h3, h4, h5, ?_, ?_, ?_⟩ <;> intro hn <;>
      rcases design_target resp s.designRetries with ht | ⟨ht, hr⟩ | ht <;>
      rw [ht] at hn <;> first
        | exact hr
        | exact Node.noConfusion hn
  | design_tools s results hv =>
    have hiter : s.iterationCount < MAX_ITERATIONS := h2 fun hd => Node.noConfusion hd
    exact ⟨le_of_lt hiter, fun _ => hiter, h3, h4, h5,
      fun hn => Node.noConfusion hn, fun hn => Node.noConfusion hn,
      fun hn => Node.noConfusion hn⟩
  | design_post s =>
    have hiter : s.iterationCount < MAX_ITERATIONS := h2 fun hd => Node.noConfusion hd
    exact ⟨le_of_lt hiter, fun _ => hiter, h3, h4, h5,
      fun hn => Node.noConfusion hn, fun hn => Node.noConfusion hn,
      fun hn => Node.noConfusion hn⟩
  | design_nudge s =>
    have hiter : s.iterationCount < MAX_ITERATIONS := h2 fun hd => Node.noConfusion hd
    have hd : s.designRetries < MAX_RETRIES := h6 rfl
    exact ⟨le_of_lt hiter, fun _ => hiter,
      by show s.designRetries + 1 ≤ MAX_RETRIES; omega, h4, h5,
      fun hn => Node.noConfusion hn, fun hn => Node.noConfusion hn,
      fun hn => Node.noConfusion hn⟩
  | engineer s resp =>
    have hiter : s.iterationCount < MAX_ITERATIONS := h2 fun hd => Node.noConfusion hd
    refine ⟨le_of_lt hiter, fun _ => hiter, h3, h4, h5, ?_, ?_, ?_⟩ <;> intro hn <;>
      rcases engineer_target resp s.engineerRetries with ht | ⟨ht, hr⟩ | ht <;>
      rw [ht] at hn <;> first
        | exact hr
        | exact Node.noConfusion hn
  | engineer_tools s results hv =>
    have hiter : s.iterationCount < MAX_ITERATIONS := h2 fun hd => Node.noConfusion hd
    exact ⟨le_of_lt hiter, fun _ => hiter, h3, h4, h5,
      fun hn => Node.noConfusion hn, fun hn => Node.noConfusion hn,
      fun hn => Node.noConfusion hn⟩
  | engineer_nudge s =>
    have hiter : s.iterationCount < MAX_ITERATIONS := h2 fun hd => Node.noConfusion hd
    have he : s.engineerRetries < MAX_RETRIES := h7 rfl
    exact ⟨le_of_lt hiter, fun _ => hiter, h3,
      by show s.engineerRetries + 1 ≤ MAX_RETRIES; omega, h5,
      fun hn => Node.noConfusion hn, fun hn => Node.noConfusion hn,
      fun hn => Node.noConfusion hn⟩
  | qa s resp =>
    have hiter : s.iterationCount < MAX_ITERATIONS := h2 fun hd => Node.noConfusion hd
    refine ⟨le_of_lt hiter, fun _ => hiter, h3, h4, h5, ?_, ?_, ?_⟩ <;> intro hn <;>
      rcases qa_target resp s.qaRetries with ht | ⟨ht, hr⟩ | ht <;>
      rw [ht] at hn <;> first
        | exact hr
        | exact Node.noConfusion hn
  | qa_tools s results hv =>
    have hiter : s.iterationCount < MAX_ITERATIONS := h2 fun hd => Node.noConfusion hd
    exact ⟨le_of_lt hiter, fun _ => hiter, h3, h4, h5,
      fun hn => Node.noConfusion hn, fun hn => Node.noConfusion hn,
      fun hn => Node.noConfusion hn⟩
  | qa_nudge s =>
    have hiter : s.iterationCount < MAX_ITERATIONS := h2 fun hd => Node.noConfusion hd
    have hq : s.qaRetries < MAX_RETRIES := h8 rfl
    exact ⟨le_of_lt hiter, fun _ => hiter, h3, h4,
      by show s.qaRetries + 1 ≤ MAX_RETRIES; omega,
      fun hn => Node.noConfusion hn, fun hn => Node.noConfusion hn,
      fun hn => Node.noConfusion hn⟩
  | qa_decision s =>
    have hiter : s.iterationCount < MAX_ITERATIONS := h2 fun hd => Node.noConfusion hd
    by_cases hc : qaVerdict s = true ∧ s.iterationCount + 1 < MAX_ITERATIONS
    · rw [qaDecisionNode_revision s hc]
      have hroute :
          qaDecisionEdges (routeQADecision
            { s with reviewNotes := qaNotes s
                     iterationCount := s.iterationCount + 1
                     currentAgent := "engineer"
                     engineerStartIdx := -1 }) = Node.engineer := by
        simp [routeQADecision, qaDecisionEdges]
      rw [hroute]
      exact ⟨le_of_lt hc.2, fun _ => hc.2, h3, h4, h5,
        fun hn => Node.noConfusion hn, fun hn => Node.noConfusion hn,
        fun hn => Node.noConfusion hn⟩
    · rw [qaDecisionNode_done s hc]
      have hroute :
          qaDecisionEdges (routeQADecision
            { s with reviewNotes := qaNotes s
                     iterationCount := s.iterationCount + 1
                     currentAgent := "done" }) = Node.done := by
        simp [routeQADecision, qaDecisionEdges]
      rw [hroute]
      exact ⟨by show s.iterationCount + 1 ≤ MAX_ITERATIONS; omega,
        fun hn => absurd rfl hn, h3, h4, h5,
        fun hn => Node.noConfusion hn, fun hn => Node.noConfusion hn,
        fun hn => Node.noConfusion hn⟩

/-- The counter invariant holds at the start configuration. -/
lemma counterInv_init (u : String) : CounterInv (initConfig u) :=
  ⟨Nat.zero_le _, fun _ => by show (0 : Nat) < MAX_ITERATIONS; decide,
   Nat.zero_le _, Nat.zero_le _, Nat.zero_le _,
   fun hn => Node.noConfusion hn, fun hn => Node.noConfusion hn,
   fun hn => Node.noConfusion hn⟩

/-- The counter invariant holds in every reachable configuration. -/
lemma counterInv_reachable (u : String) (c : Config) (h : Reachable u c) :
    CounterInv c := by
  induction h with
  | refl => exact counterInv_init u
  | tail hab hbc ih => exact counterInv_step ih hbc

/-- C5: in every reachable configuration of every run, `iterationCount` never
exceeds `MAX_ITERATIONS`; and once the cap is reached, `qaDecisionNode` sets
`currentAgent` to "done" regardless of the review verdict. -/
theorem iteration_count_bounded :
    (∀ (u : String) (c : Config), Reachable u c →
      c.state.iterationCount ≤ MAX_ITERATIONS) ∧
    (∀ s : WorkflowState, MAX_ITERATIONS ≤ s.iterationCount →
      (qaDecisionNode s).currentAgent = "done") := by
  constructor
  · intro u c h
    exact (counterInv_reachable u c h).1
  · intro s hs
    have hc : ¬(qaVerdict s = true ∧ s.iterationCount + 1 < MAX_ITERATIONS) := by
      rintro ⟨_, h2⟩; omega
    rw [qaDecisionNode_done s hc]

/-- Witness for C5 at concrete inputs. -/
theorem iteration_count_bounded_witness :
    (initConfig "Build a counter").state.iterationCount ≤ MAX_ITERATIONS ∧
    (qaDecisionNode
      { initState "Build a counter" with iterationCount := MAX_ITERATIONS }).currentAgent
      = "done" :=
  ⟨iteration_count_bounded.1 "Build a counter" _ Relation.ReflTransGen.refl,
   iteration_count_bounded.2 _ (by decide)⟩

/-- C6: in every reachable configuration, every phase's retry counter stays at
or below `MAX_RETRIES`; and once a phase's retry counter has reached
`MAX_RETRIES`, its router never selects the nudge branch again. -/
theorem retry_count_bounded :
    (∀ (u : String) (c : Config), Reachable u c →
      c.state.designRetries ≤ MAX_RETRIES ∧
        c.state.engineerRetries ≤ MAX_RETRIES ∧
        c.state.qaRetries ≤ MAX_RETRIES) ∧
    (∀ (m : Msg) (r : Nat), MAX_RETRIES ≤ r →
      routeDesign m r ≠ "design_nudge" ∧
        routeEngineer m r ≠ "engineer_nudge" ∧
        routeQA m r ≠ "qa_nudge") := by
  constructor
  · intro u c h
    obtain ⟨_, _, h3, h4, h5, _, _, _⟩ := counterInv_reachable u c h
    exact ⟨h3, h4, h5⟩
  · intro m r hr
    have hlt : ¬(r < MAX_RETRIES) := by omega
    refine ⟨?_, ?_, ?_⟩ <;>
      cases hb : isToolCallMsg m <;>
        simp [routeDesign, routeEngineer, routeQA, hb, hlt]

/-- Witness for C6 at concrete inputs. -/
theorem retry_count_bounded_witness :
    ((initConfig "Build a card").state.designRetries ≤ MAX_RETRIES ∧
      (initConfig "Build a card").state.engineerRetries ≤ MAX_RETRIES ∧
      (initConfig "Build a card").state.qaRetries ≤ MAX_RETRIES) ∧
    (routeDesign (aiMsg "Hello" []) MAX_RETRIES ≠ "design_nudge" ∧
      routeEngineer (aiMsg "Hello" []) MAX_RETRIES ≠ "engineer_nudge" ∧
      routeQA (aiMsg "Hello" []) MAX_RETRIES ≠ "qa_nudge") :=
  ⟨retry_count_bounded.1 "Build a card" _ Relation.ReflTransGen.refl,
   retry_count_bounded.2 (aiMsg "Hello" []) MAX_RETRIES (le_refl _)⟩

/-- The three abstract routing outcomes the spec describes for a phase router:
invoke the Tool Invoker, nudge, or advance to the next stage. -/
inductive RouteDecision where
  | toTools
  | toNudge
  | toNext
deriving DecidableEq, Repr

/-- Modelled from the spec (§4.4) for the refinement claim: the Router as a
pure function of the last turn and the phase's retry counter, with priority
1. agent turn requesting tool actions → Tool Invoker, 2. retries left → Nudge,
3. advance. -/
def routerSpec (lastTurn : Msg) (retryCount : Nat) : RouteDecision :=
  if lastTurn.role = Role.ai ∧ lastTurn.toolCalls ≠ [] then RouteDecision.toTools
  else if retryCount < MAX_RETRIES then RouteDecision.toNudge
  else RouteDecision.toNext

/-- The source's boolean guard agrees with the spec's "agent turn requesting
tool actions". -/
lemma isToolCallMsg_iff (m : Msg) :
    isToolCallMsg m = true ↔ m.role = Role.ai ∧ m.toolCalls ≠ [] := by
  cases m with
  | mk role content tcs => cases role <;> cases tcs <;> simp [isToolCallMsg]

/-- C7: each phase router refines the spec's three-way priority decision,
advancing design→engineer, engineer→qa, qa→qa_decision. -/
theorem router_refines_spec (m : Msg) (r : Nat) :
    (routeDesign m r = "design_tools" ↔ routerSpec m r = RouteDecision.toTools) ∧
    (routeDesign m r = "design_nudge" ↔ routerSpec m r = RouteDecision.toNudge) ∧
    (routeDesign m r = "engineer" ↔ routerSpec m r = RouteDecision.toNext) ∧
    (routeEngineer m r = "engineer_tools" ↔ routerSpec m r = RouteDecision.toTools) ∧
    (routeEngineer m r = "engineer_nudge" ↔ routerSpec m r = RouteDecision.toNudge) ∧
    (routeEngineer m r = "qa" ↔ routerSpec m r = RouteDecision.toNext) ∧
    (routeQA m r = "qa_tools" ↔ routerSpec m r = RouteDecision.toTools) ∧
    (routeQA m r = "qa_nudge" ↔ routerSpec m r = RouteDecision.toNudge) ∧
    (routeQA m r = "qa_decision" ↔ routerSpec m r = RouteDecision.toNext) := by
  by_cases hm : m.role = Role.ai ∧ m.toolCalls ≠ []
  · have hb : isToolCallMsg m = true := (isToolCallMsg_iff m).2 hm
    simp [routeDesign, routeEngineer, routeQA, routerSpec, hb, hm]
  · have hb : isToolCallMsg m = false := by
      cases hcase : isToolCallMsg m
      · rfl
      · exact absurd ((isToolCallMsg_iff m).1 hcase) hm
    by_cases hr : r < MAX_RETRIES <;>
      simp [routeDesign, routeEngineer, routeQA, routerSpec, hb, hm, hr]

/-- C8: each Agent Step's scoped transcript view contains no turn appended
before the phase's current start index except the first user turn, and the
design step receives only user-role messages. -/
theorem agent_step_scoping :
    (∀ (s : WorkflowState) (m : Msg), m ∈ engineerNodeInput s →
      s.messages.find? (fun x => x.role == Role.human) = some m ∨
        m ∈ s.messages.drop (engineerStartIdxEff s)) ∧
    (∀ (s : WorkflowState) (m : Msg), m ∈ qaNodeInput s →
      s.messages.find? (fun x => x.role == Role.human) = some m ∨
        m ∈ s.messages.drop (qaStartIdxEff s)) ∧
    (∀ (s : WorkflowState) (m : Msg), m ∈ designNodeInput s → m.role = Role.human) := by
  refine ⟨?_, ?_, ?_⟩
  · intro s m hm
    simp only [engineerNodeInput, List.mem_append] at hm
    rcases hm with hm | hm
    · left
      rcases hfind : s.messages.find? (fun x => x.role == Role.human) with _ | u
      · rw [hfind] at hm
        simp at hm
      · rw [hfind] at hm
        simp at hm
        rw [hm]
        exact hfind
    · right
      by_cases hlt : engineerStartIdxEff s < s.messages.length
      · rwa [if_pos hlt] at hm
      · rw [if_neg hlt] at hm
        simp at hm
  · intro s m hm
    simp only [qaNodeInput, List.mem_append] at hm
    rcases hm with hm | hm
    · left
      rcases hfind : s.messages.find? (fun x => x.role == Role.human) with _ | u
      · rw [hfind] at hm
        simp at hm
      · rw [hfind] at hm
        simp at hm
        rw [hm]
        exact hfind
    · right
      by_cases hlt : qaStartIdxEff s < s.messages.length
      · rwa [if_pos hlt] at hm
      · rw [if_neg hlt] at hm
        simp at hm
  · intro s m hm
    have := List.mem_filter.1 hm
    simpa using this.2

/-- Witness for C8 at concrete inputs. -/
theorem agent_step_scoping_witness :
    ((initState "Add a card").messages.find? (fun x => x.role == Role.human) =
        some (humanMsg "Add a card") ∨
      humanMsg "Add a card" ∈
        (initState "Add a card").messages.drop (engineerStartIdxEff (initState "Add a card"))) ∧
    ((initState "Add a card").messages.find? (fun x => x.role == Role.human) =
        some (humanMsg "Add a card") ∨
      humanMsg "Add a card" ∈
        (initState "Add a card").messages.drop (qaStartIdxEff (initState "Add a card"))) ∧
    (humanMsg "Add a card").role = Role.human :=
  ⟨agent_step_scoping.1 _ _ (by decide),
   agent_step_scoping.2.1 _ _ (by decide),
   agent_step_scoping.2.2 (initState "Add a card") _ (by decide)⟩

/-- Only the 10 most recent messages influence the verdict scan. -/
lemma verdictScan_window (pre ms : List Msg) (h : ms.length = 10) :
    verdictScan (pre ++ ms) = verdictScan ms := by
  unfold verdictScan recentWindow
  rw [h]
  have h1 : (pre ++ ms).length - 10 = pre.length := by simp [h]
  rw [h1, List.drop_left]
  norm_num

/-- A needs-revision verdict in the most recent message is adopted. -/
lemma verdictScan_last_needs_revision (ms : List Msg) (m : Msg)
    (hrole : m.role = Role.tool)
    (hinc : strIncludes m.content "NEEDS REVISION" = true) :
    verdictScan (ms ++ [m]) = some (true, m.content) := by
  unfold verdictScan recentWindow
  have hle : (ms ++ [m]).length - 10 ≤ ms.length := by simp
  rw [List.drop_append_of_le_length hle, List.reverse_append]
  simp only [List.reverse_cons, List.reverse_nil, List.nil_append, List.singleton_append]
  unfold scanForVerdict
  simp [hrole, hinc]

/-- An approval verdict in the most recent message is adopted when it does not
also contain the needs-revision marker. -/
lemma verdictScan_last_approved (ms : List Msg) (m : Msg)
    (hrole : m.role = Role.tool)
    (hnr : strIncludes m.content "NEEDS REVISION" = false)
    (hinc : strIncludes m.content "APPROVED" = true) :
    verdictScan (ms ++ [m]) = some (false, m.content) := by
  unfold verdictScan recentWindow
  have hle : (ms ++ [m]).length - 10 ≤ ms.length := by simp
  rw [List.drop_append_of_le_length hle, List.reverse_append]
  simp only [List.reverse_cons, List.reverse_nil, List.nil_append, List.singleton_append]
  unfold scanForVerdict
  simp [hrole, hnr, hinc]

/-- When the scan finds no verdict message, the decision node terminates the
run as done (the `needsRevision` local stays false). -/
lemma qaDecisionNode_of_no_verdict (s : WorkflowState)
    (h : verdictScan s.messages = none) :
    (qaDecisionNode s).currentAgent = "done" ∧
      (qaDecisionNode s).reviewNotes = "" ∧
      (qaDecisionNode s).iterationCount = s.iterationCount + 1 := by
  have hv : qaVerdict s = false := by
    unfold qaVerdict
    rw [h]
  have hn : qaNotes s = "" := by
    unfold qaNotes
    rw [h]
  have hc : ¬(qaVerdict s = true ∧ s.iterationCount + 1 < MAX_ITERATIONS) := by
    rintro ⟨h1, _⟩
    rw [hv] at h1
    exact Bool.noConfusion h1
  rw [qaDecisionNode_done s hc]
  exact ⟨rfl, hn, rfl⟩

/-- A needs-revision verdict buried more than 10 messages deep, with only
non-tool chatter after it. -/
def buriedVerdictMessages : List Msg :=
  toolMsg "Review NEEDS REVISION\n\nThe button handler is broken." ::
    List.replicate 10 (aiMsg "Chatting instead of acting." [])

/-- C10: the verdict scan looks only at the 10 most recent messages (newest
first, adopting the most recent tool message carrying a marker), and a verdict
older than that window is never found, in which case the decision terminates
the run as done. -/
theorem verdict_scan_window_behavior :
    (∀ pre ms : List Msg, ms.length = 10 →
      verdictScan (pre ++ ms) = verdictScan ms) ∧
    (∀ (ms : List Msg) (m : Msg), m.role = Role.tool →
      strIncludes m.content "NEEDS REVISION" = true →
      verdictScan (ms ++ [m]) = some (true, m.content)) ∧
    (∀ (ms : List Msg) (m : Msg), m.role = Role.tool →
      strIncludes m.content "NEEDS REVISION" = false →
      strIncludes m.content "APPROVED" = true →
      verdictScan (ms ++ [m]) = some (false, m.content)) ∧
    (∀ s : WorkflowState, verdictScan s.messages = none →
      (qaDecisionNode s).currentAgent = "done") ∧
    verdictScan buriedVerdictMessages = none :=
  ⟨verdictScan_window, verdictScan_last_needs_revision, verdictScan_last_approved,
   fun s h => (qaDecisionNode_of_no_verdict s h).1, by decide⟩

/-- Witness for C10 at concrete inputs. -/
theorem verdict_scan_window_behavior_witness :
    verdictScan ([toolMsg "Review NEEDS REVISION\n\nOld verdict."] ++
        List.replicate 10 (aiMsg "Filler." [])) =
      verdictScan (List.replicate 10 (aiMsg "Filler." [])) ∧
    verdictScan ([aiMsg "Submitting." []] ++
        [toolMsg "Review NEEDS REVISION\n\nBad handler."]) =
      some (true, "Review NEEDS REVISION\n\nBad handler.") ∧
    verdictScan ([aiMsg "Submitting." []] ++ [toolMsg "Review APPROVED\n\nFine."]) =
      some (false, "Review APPROVED\n\nFine.") ∧
    (qaDecisionNode (initState "Make a page")).currentAgent = "done" :=
  ⟨verdict_scan_window_behavior.1 _ _ (by decide),
   verdict_scan_window_behavior.2.1 _ _ (by decide) (by decide),
   verdict_scan_window_behavior.2.2.1 _ _ (by decide) (by decide) (by decide),
   verdict_scan_window_behavior.2.2.2.1 _ (by decide)⟩

/-- A review-phase transcript with no verdict marker at all, with the
revision-iteration budget untouched. -/
def noVerdictState : WorkflowState :=
  { initState "Build a form" with
    messages := [humanMsg "Build a form", aiMsg "I believe the code is fine." []] }

/-- C3 counterexample: with no verdict marker and iterations remaining, the
decision node terminates the run as done instead of treating it as
needs-revision and routing back to the implementation phase. -/
theorem no_verdict_done_despite_iterations :
    noVerdictState.iterationCount < MAX_ITERATIONS ∧
    verdictScan noVerdictState.messages = none ∧
    (qaDecisionNode noVerdictState).currentAgent = "done" ∧
    (qaDecisionNode noVerdictState).currentAgent ≠ "engineer" := by
  refine ⟨by decide, by decide, by decide, by decide⟩

/-- C3 amended: when no verdict marker is found, the decision node treats the
run as approved — it terminates as done regardless of remaining iterations,
leaves empty review notes, still increments the iteration counter, and (being
a total function) never throws. -/
theorem no_verdict_treated_as_approved (s : WorkflowState)
    (h : verdictScan s.messages = none) :
    (qaDecisionNode s).currentAgent = "done" ∧
      (qaDecisionNode s).reviewNotes = "" ∧
      (qaDecisionNode s).iterationCount = s.iterationCount + 1 :=
  qaDecisionNode_of_no_verdict s h

/-- Witness for the amended C3 at a concrete input. -/
theorem no_verdict_treated_as_approved_witness :
    (qaDecisionNode noVerdictState).currentAgent = "done" ∧
      (qaDecisionNode noVerdictState).reviewNotes = "" ∧
      (qaDecisionNode noVerdictState).iterationCount =
        noVerdictState.iterationCount + 1 :=
  no_verdict_treated_as_approved noVerdictState (by decide)

/-- A state entering the revision decision with a needs-revision verdict,
nonzero retry counters and a set review start index. -/
def revisionState : WorkflowState :=
  { initState "Build a form" with
    messages := [humanMsg "Build a form",
      toolMsg "Review NEEDS REVISION\n\nThe submit handler is broken."]
    engineerRetries := 1
    qaRetries := 1
    engineerStartIdx := 3
    qaStartIdx := 5 }

/-- C4 counterexample: on the revision route the decision node clears only
`engineerStartIdx`; the implementation phase's retry counter is not reset to 0
and the review phase's start index is not reset either. -/
theorem revision_keeps_retries_and_qa_start :
    (qaDecisionNode revisionState).currentAgent = "engineer" ∧
    (qaDecisionNode revisionState).engineerStartIdx = -1 ∧
    (qaDecisionNode revisionState).engineerRetries = 1 ∧
    revisionState.engineerRetries = 1 ∧
    (1 : Nat) ≠ 0 ∧
    (qaDecisionNode revisionState).qaStartIdx = 5 ∧
    revisionState.qaStartIdx = 5 := by
  refine ⟨by decide, by decide, by decide, by decide, by decide, by decide, by decide⟩

/-- C4 amended: on a needs-revision verdict with iteration budget remaining,
the decision node increments `iterationCount`, stores the review notes, sets
`currentAgent` to the implementation phase and resets only `engineerStartIdx`
to the unset sentinel; every other channel — the retry counters and the review
phase's start index included — is left unchanged (and no node ever resets them
on re-entry). -/
theorem revision_resets_only_engineer_start :
    (∀ s : WorkflowState, qaVerdict s = true → s.iterationCount + 1 < MAX_ITERATIONS →
      qaDecisionNode s =
        { s with reviewNotes := qaNotes s
                 iterationCount := s.iterationCount + 1
                 currentAgent := "engineer"
                 engineerStartIdx := -1 }) ∧
    (∀ s : WorkflowState,
      (qaDecisionNode s).engineerRetries = s.engineerRetries ∧
        (qaDecisionNode s).qaRetries = s.qaRetries ∧
        (qaDecisionNode s).qaStartIdx = s.qaStartIdx) := by
  constructor
  · intro s h1 h2
    exact qaDecisionNode_revision s ⟨h1, h2⟩
  · intro s
    unfold qaDecisionNode
    split <;> exact ⟨rfl, rfl, rfl⟩

/-- Witness for the amended C4 at a concrete input. -/
theorem revision_resets_only_engineer_start_witness :
    qaDecisionNode revisionState =
      { revisionState with
          reviewNotes := qaNotes revisionState
          iterationCount := revisionState.iterationCount + 1
          currentAgent := "engineer"
          engineerStartIdx := -1 } ∧
    (qaDecisionNode revisionState).engineerRetries = revisionState.engineerRetries :=
  ⟨revision_resets_only_engineer_start.1 revisionState (by decide) (by decide),
   (revision_resets_only_engineer_start.2 revisionState).1⟩

def tcDesign : ToolCall := ⟨"create_design_spec", "component: Counter"⟩

def tcEditor : ToolCall := ⟨"str_replace_editor", "command: create"⟩

def tcReview : ToolCall := ⟨"submit_review", "needsRevision: false"⟩

/-- A review transcript whose most recent tool message is an approval, entered
with an untouched iteration counter. -/
def approvedState : WorkflowState :=
  { initState "Build a counter" with
    messages := [humanMsg "Build a counter",
      toolMsg "Review APPROVED\n\nLooks good.\n\nIssues:\nNo issues found."] }

/-- C2 counterexample: on an approved verdict the decision node still
increments `iterationCount` — the run terminates with the counter at 1, not 0. -/
theorem qa_decision_increments_on_approval :
    approvedState.iterationCount = 0 ∧
    (qaDecisionNode approvedState).currentAgent = "done" ∧
    (qaDecisionNode approvedState).iterationCount = 1 ∧
    (1 : Nat) ≠ 0 := by
  refine ⟨by decide, by decide, by decide, by decide⟩

def scenarioAUser : String := "Build a counter component"

def sA0 : WorkflowState := initState scenarioAUser

def sA1 : WorkflowState := designNode sA0 (aiMsg "Planning the component design." [tcDesign])

def sA2 : WorkflowState :=
  toolNodeAppend sA1 [toolMsg "Design spec created: a counter with increase and decrease buttons."]

def sA3 : WorkflowState := designToolsPostProcess sA2

def sA4 : WorkflowState := engineerNode sA3 (aiMsg "Creating the component files." [tcEditor])

def sA5 : WorkflowState := toolNodeAppend sA4 [toolMsg "File created: /App.jsx"]

def sA6 : WorkflowState := engineerNode sA5 (aiMsg "The component is implemented." [])

def sA7 : WorkflowState := engineerNudgeNode sA6

def sA8 : WorkflowState := engineerNode sA7 (aiMsg "Implementation is complete." [])

def sA9 : WorkflowState := qaNode sA8 (aiMsg "Submitting the review." [tcReview])

def sA10 : WorkflowState :=
  toolNodeAppend sA9 [toolMsg "Review APPROVED\n\nAll checks passed.\n\nIssues:\nNo issues found."]

def sA11 : WorkflowState := qaNode sA10 (aiMsg "The review has been submitted." [])

def sA12 : WorkflowState := qaNudgeNode sA11

def sA13 : WorkflowState := qaNode sA12 (aiMsg "Review complete." [])

def sA14 : WorkflowState := qaDecisionNode sA13

/-- The scenario-A run (tool call in every phase, review approves) executed
step by step to the END node. -/
lemma scenarioA_trace : Reachable scenarioAUser ⟨Node.done, sA14⟩ := by
  have h1 : Step (initConfig scenarioAUser) ⟨Node.design_tools, sA1⟩ :=
    Step.design sA0 (aiMsg "Planning the component design." [tcDesign])
  have h2 : Step ⟨Node.design_tools, sA1⟩ ⟨Node.design_post, sA2⟩ :=
    Step.design_tools sA1
      [toolMsg "Design spec created: a counter with increase and decrease buttons."]
      ⟨by decide, by decide⟩
  have h3 : Step ⟨Node.design_post, sA2⟩ ⟨Node.engineer, sA3⟩ :=
    Step.design_post sA2
  have h4 : Step ⟨Node.engineer, sA3⟩ ⟨Node.engineer_tools, sA4⟩ :=
    Step.engineer sA3 (aiMsg "Creating the component files." [tcEditor])
  have h5 : Step ⟨Node.engineer_tools, sA4⟩ ⟨Node.engineer, sA5⟩ :=
    Step.engineer_tools sA4 [toolMsg "File created: /App.jsx"] ⟨by decide, by decide⟩
  have h6 : Step ⟨Node.engineer, sA5⟩ ⟨Node.engineer_nudge, sA6⟩ :=
    Step.engineer sA5 (aiMsg "The component is implemented." [])
  have h7 : Step ⟨Node.engineer_nudge, sA6⟩ ⟨Node.engineer, sA7⟩ :=
    Step.engineer_nudge sA6
  have h8 : Step ⟨Node.engineer, sA7⟩ ⟨Node.qa, sA8⟩ :=
    Step.engineer sA7 (aiMsg "Implementation is complete." [])
  have h9 : Step ⟨Node.qa, sA8⟩ ⟨Node.qa_tools, sA9⟩ :=
    Step.qa sA8 (aiMsg "Submitting the review." [tcReview])
  have h10 : Step ⟨Node.qa_tools, sA9⟩ ⟨Node.qa, sA10⟩ :=
    Step.qa_tools sA9
      [toolMsg "Review APPROVED\n\nAll checks passed.\n\nIssues:\nNo issues found."]
      ⟨by decide, by decide⟩
  have h11 : Step ⟨Node.qa, sA10⟩ ⟨Node.qa_nudge, sA11⟩ :=
    Step.qa sA10 (aiMsg "The review has been submitted." [])
  have h12 : Step ⟨Node.qa_nudge, sA11⟩ ⟨Node.qa, sA12⟩ :=
    Step.qa_nudge sA11
  have h13 : Step ⟨Node.qa, sA12⟩ ⟨Node.qa_decision, sA13⟩ :=
    Step.qa sA12 (aiMsg "Review complete." [])
  have h14 : Step ⟨Node.qa_decision, sA13⟩ ⟨Node.done, sA14⟩ :=
    Step.qa_decision sA13
  exact Relation.ReflTransGen.head h1 (Relation.ReflTransGen.head h2
    (Relation.ReflTransGen.head h3 (Relation.ReflTransGen.head h4
    (Relation.ReflTransGen.head h5 (Relation.ReflTransGen.head h6
    (Relation.ReflTransGen.head h7 (Relation.ReflTransGen.head h8
    (Relation.ReflTransGen.head h9 (Relation.ReflTransGen.head h10
    (Relation.ReflTransGen.head h11 (Relation.ReflTransGen.head h12
    (Relation.ReflTransGen.head h13 (Relation.ReflTransGen.single h14)))))))))))))

/-- C2 amended: the decision node increments `iterationCount` on every
invocation, approval included; the scenario-A run (tool call in every phase,
review approved) reaches the END node after one pass through design,
implementation and review with `iterationCount = 1`, not 0. -/
theorem scenario_a_done_iteration_one :
    (∀ s : WorkflowState, (qaDecisionNode s).iterationCount = s.iterationCount + 1) ∧
    Reachable scenarioAUser ⟨Node.done, sA14⟩ ∧
    sA14.currentAgent = "done" ∧
    sA14.iterationCount = 1 := by
  refine ⟨?_, scenarioA_trace, by decide, by decide⟩
  intro s
  unfold qaDecisionNode
  split <;> rfl

def sB0 : WorkflowState := initState "Build a card component"

def sB1 : WorkflowState := designNode sB0 (aiMsg "Designing the card." [tcDesign])

def sB2 : WorkflowState := toolNodeAppend sB1 [toolMsg "Design spec created: a card with a title."]

def sB3 : WorkflowState := designToolsPostProcess sB2

/-- C1 counterexample: a design step that requests a tool call reaches the
design Tool Invoker, whose fixed edges lead through the post-process step
straight to the implementation phase's Agent Step — not back to design. -/
theorem design_tools_advance_to_engineer :
    Step (initConfig "Build a card component") ⟨Node.design_tools, sB1⟩ ∧
    Step ⟨Node.design_tools, sB1⟩ ⟨Node.design_post, sB2⟩ ∧
    Step ⟨Node.design_post, sB2⟩ ⟨Node.engineer, sB3⟩ ∧
    Node.engineer ≠ Node.design :=
  ⟨Step.design sB0 (aiMsg "Designing the card." [tcDesign]),
   Step.design_tools sB1 [toolMsg "Design spec created: a card with a title."]
     ⟨by decide, by decide⟩,
   Step.design_post sB2,
   by decide⟩

/-- C1 amended: after the design Tool Invoker runs, control follows the fixed
edges `design_tools → design_post → engineer`: the spec is extracted and the
workflow advances directly to the implementation phase, never looping back to
the design Agent Step; only the no-tool-call nudge branch returns to design. -/
theorem design_post_advances_to_implement :
    (∀ (s : WorkflowState) (results : List Msg), ValidToolResults s results →
      Step ⟨Node.design_tools, s⟩ ⟨Node.design_post, toolNodeAppend s results⟩) ∧
    (∀ s : WorkflowState,
      Step ⟨Node.design_post, s⟩ ⟨Node.engineer, designToolsPostProcess s⟩) ∧
    (∀ (s : WorkflowState) (c' : Config), Step ⟨Node.design_tools, s⟩ c' →
      c'.node = Node.design_post) ∧
    (∀ (s : WorkflowState) (c' : Config), Step ⟨Node.design_post, s⟩ c' →
      c'.node = Node.engineer) := by
  refine ⟨fun s results hv => Step.design_tools s results hv,
    fun s => Step.design_post s, ?_, ?_⟩
  · intro s c' h
    cases h
    rfl
  · intro s c' h
    cases h
    rfl

/-- Witness for the amended C1 at concrete inputs. -/
theorem design_post_advances_to_implement_witness :
    Step ⟨Node.design_tools, sB1⟩ ⟨Node.design_post, sB2⟩ ∧
    Step ⟨Node.design_post, sB2⟩ ⟨Node.engineer, sB3⟩ ∧
    (⟨Node.design_post, sB2⟩ : Config).node = Node.design_post ∧
    (⟨Node.engineer, sB3⟩ : Config).node = Node.engineer :=
  ⟨design_post_advances_to_implement.1 sB1
      [toolMsg "Design spec created: a card with a title."] ⟨by decide, by decide⟩,
   design_post_advances_to_implement.2.1 sB2,
   design_post_advances_to_implement.2.2.1 sB1 _
     (Step.design_tools sB1 [toolMsg "Design spec created: a card with a title."]
       ⟨by decide, by decide⟩),
   design_post_advances_to_implement.2.2.2 sB2 _ (Step.design_post sB2)⟩

/-- One deterministic transition of the compiled graph, given the model
response and tool results the external collaborators produce at that step
(the functional form of the `Step` relation; the END node is absorbing). -/
def stepExec (c : Config) (resp : Msg) (results : List Msg) : Config :=
  match c.node with
  | Node.design =>
      ⟨designEdges (routeDesign resp c.state.designRetries), designNode c.state resp⟩
  | Node.design_tools => ⟨Node.design_post, toolNodeAppend c.state results⟩
  | Node.design_post => ⟨Node.engineer, designToolsPostProcess c.state⟩
  | Node.design_nudge => ⟨Node.design, designNudgeNode c.state⟩
  | Node.engineer =>
      ⟨engineerEdges (routeEngineer resp c.state.engineerRetries), engineerNode c.state resp⟩
  | Node.engineer_tools => ⟨Node.engineer, toolNodeAppend c.state results⟩
  | Node.engineer_nudge => ⟨Node.engineer, engineerNudgeNode c.state⟩
  | Node.qa => ⟨qaEdges (routeQA resp c.state.qaRetries), qaNode c.state resp⟩
  | Node.qa_tools => ⟨Node.qa, toolNodeAppend c.state results⟩
  | Node.qa_nudge => ⟨Node.qa, qaNudgeNode c.state⟩
  | Node.qa_decision =>
      ⟨qaDecisionEdges (routeQADecision (qaDecisionNode c.state)), qaDecisionNode c.state⟩
  | Node.done => c

/-- Modelled from the spec: the error the step-limit guard raises.  The guard
itself lives in the graph runtime library, not in this repository; the spec
(§5) calls it the "recursion/step limit exceeded" error, and the call site
passes `recursionLimit: 80`. -/
def recursionLimitError : String := "Recursion limit of 80 reached"

/-- Modelled from the spec: the workflow engine's bounded driver loop.  The
runtime that executes the compiled graph is external to the repository; per
the spec (§5) it enforces a hard step budget independent of the retry and
iteration caps, raising the step-limit error instead of hanging.  `oracle n`
supplies the model response and tool results consumed at step `n`; the driver
returns the final configuration and the number of transitions taken, or the
step-limit error. -/
def runGraphAux (oracle : Nat → Msg × List Msg) :
    Nat → Nat → Config → Except String (Config × Nat)
  | 0, used, c =>
      if c.node = Node.done then Except.ok (c, used)
      else Except.error recursionLimitError
  | fuel + 1, used, c =>
      if c.node = Node.done then Except.ok (c, used)
      else runGraphAux oracle fuel (used + 1) (stepExec c (oracle used).1 (oracle used).2)

/-- `graph.invoke({messages: [new HumanMessage(content)]}, { recursionLimit: 80 })`
(route handler lines 99-102): run the graph from the start configuration under
the hard budget of 80. -/
def RECURSION_LIMIT : Nat := 80

def runGraph (oracle : Nat → Msg × List Msg) (userContent : String) :
    Except String (Config × Nat) :=
  runGraphAux oracle RECURSION_LIMIT 0 (initConfig userContent)

/-- An orchestrator-level stream event (`AgentStreamEvent`, reduced to the
fields the termination claim concerns). -/
structure Event where
  type : String
  content : String
deriving DecidableEq, Repr

/-- The orchestrator-level event sequence of `runRealMultiAgentFlow` (route
handler lines 63-158): an opening `agent_start`, then — whether the graph
completed or threw (the step-limit error included, caught by the surrounding
try/catch) — a terminal `workflow_done` event; on success it carries the
message count, on an error it carries the error description.  Per-phase events
and the file snapshot are elided. -/
def runRealMultiAgentFlow (oracle : Nat → Msg × List Msg) (userContent : String) :
    List Event :=
  match runGraph oracle userContent with
  | Except.ok p =>
      [⟨"agent_start", "Starting multi-agent workflow..."⟩,
       ⟨"workflow_done", toString p.1.state.messages.length⟩]
  | Except.error e =>
      [⟨"agent_start", "Starting multi-agent workflow..."⟩,
       ⟨"workflow_done", e⟩]

/-- The driver either stops with the step-limit error or completes within its
fuel, counting at most `used + fuel` transitions. -/
lemma runGraphAux_bounded (oracle : Nat → Msg × List Msg) :
    ∀ (fuel used : Nat) (c : Config),
      runGraphAux oracle fuel used c = Except.error recursionLimitError ∨
        ∃ c' n, runGraphAux oracle fuel used c = Except.ok (c', n) ∧ n ≤ used + fuel := by
  intro fuel
  induction fuel with
  | zero =>
    intro used c
    by_cases hd : c.node = Node.done
    · exact Or.inr ⟨c, used, by simp [runGraphAux, hd], by omega⟩
    · exact Or.inl (by simp [runGraphAux, hd])
  | succ fuel ih =>
    intro used c
    by_cases hd : c.node = Node.done
    · exact Or.inr ⟨c, used, by simp [runGraphAux, hd], by omega⟩
    · rcases ih (used + 1) (stepExec c (oracle used).1 (oracle used).2) with h | ⟨c', n, h, hn⟩
      · exact Or.inl (by simp [runGraphAux, hd, h])
      · exact Or.inr ⟨c', n, by simp [runGraphAux, hd, h], by omega⟩

/-- C9: every run either completes within the hard budget of 80 transitions or
stops with the step-limit error (the driver is total, so no run hangs); and a
run that exceeds the budget still ends with a terminal `workflow_done` event
carrying the step-limit error description. -/
theorem step_budget_enforced :
    (∀ (oracle : Nat → Msg × List Msg) (u : String),
      runGraph oracle u = Except.error recursionLimitError ∨
        ∃ c n, runGraph oracle u = Except.ok (c, n) ∧ n ≤ RECURSION_LIMIT) ∧
    (∀ (oracle : Nat → Msg × List Msg) (u : String),
      runGraph oracle u = Except.error recursionLimitError →
        (runRealMultiAgentFlow oracle u).getLast? =
          some ⟨"workflow_done", recursionLimitError⟩) := by
  constructor
  · intro oracle u
    rcases runGraphAux_bounded oracle RECURSION_LIMIT 0 (initConfig u) with h | ⟨c, n, h, hn⟩
    · exact Or.inl h
    · exact Or.inr ⟨c, n, h, by omega⟩
  · intro oracle u h
    unfold runRealMultiAgentFlow
    rw [h]
    rfl

/-- A model that requests a tool call at every step: the engineer tool loop
then cycles forever and only the hard budget stops the run. -/
def loopOracle : Nat → Msg × List Msg :=
  fun _ => (aiMsg "Working on the file." [tcEditor], [toolMsg "File contents shown."])

/-- Witness for C9: under `loopOracle` the run hits the budget, and the flow
still emits the terminal error event. -/
theorem step_budget_enforced_witness :
    (runGraph loopOracle "Edit the file forever" = Except.error recursionLimitError ∨
      ∃ c n, runGraph loopOracle "Edit the file forever" = Except.ok (c, n) ∧
        n ≤ RECURSION_LIMIT) ∧
    (runRealMultiAgentFlow loopOracle "Edit the file forever").getLast? =
      some ⟨"workflow_done", recursionLimitError⟩ :=
  ⟨step_budget_enforced.1 loopOracle "Edit the file forever",
   step_budget_enforced.2 loopOracle "Edit the file forever" rfl⟩

end MultiAgent
